import Mathlib

/-!
Shallow embedding of src/stra2.py: the heading extractor (get_headings),
the tree renderer (build_tree), and the URL-collection step of the driver.
Python strings are modelled over their ASCII fragment: str.lower, str.upper,
str.strip and the regex word/space character classes are modelled for ASCII,
which covers every literal appearing in the code.
-/

namespace Stra2

/-- ASCII model of the whitespace characters removed by Python str.strip. -/
def isSpaceChar (c : Char) : Bool :=
  c = ' ' || c = '\t' || c = '\n' || c = '\r' || c = '\x0b' || c = '\x0c'

/-- Model of Python str.strip(): remove leading and trailing whitespace. -/
def strip (s : String) : String :=
  ⟨((s.data.dropWhile isSpaceChar).reverse.dropWhile isSpaceChar).reverse⟩

/-- ASCII model of Python str.lower on one character. -/
def lowerChar (c : Char) : Char :=
  if 'A' ≤ c && c ≤ 'Z' then Char.ofNat (c.toNat + 32) else c

/-- Model of Python str.lower (ASCII fragment). -/
def lower (s : String) : String := ⟨s.data.map lowerChar⟩

/-- ASCII model of Python str.upper on one character. -/
def upperChar (c : Char) : Char :=
  if 'a' ≤ c && c ≤ 'z' then Char.ofNat (c.toNat - 32) else c

/-- Model of Python str.upper (ASCII fragment), used for h.name.upper(). -/
def upper (s : String) : String := ⟨s.data.map upperChar⟩

/-- Repeated string concatenation (the accumulating tree += line pattern). -/
def concatStrings (l : List String) : String :=
  l.foldl (fun a b => a ++ b) ""

/-- ASCII model of the regex word-character class used by word boundaries. -/
def isWordChar (c : Char) : Bool :=
  ('a' ≤ c && c ≤ 'z') || ('A' ≤ c && c ≤ 'Z') || ('0' ≤ c && c ≤ '9') || c = '_'

/-- Whether position i of the text holds a word character (false past the end). -/
def wordAt : List Char → Nat → Bool
  | [], _ => false
  | c :: _, 0 => isWordChar c
  | _ :: cs, i + 1 => wordAt cs i

/-- Regex word boundary at gap position i: the word-character status differs
on the two sides of the gap, with both edges of the string non-word. -/
def boundaryAt (text : List Char) : Nat → Bool
  | 0 => wordAt text 0
  | i + 1 => wordAt text i != wordAt text (i + 1)

/-- Whether the second list occurs at the head of the first list. -/
def startsWithChars : List Char → List Char → Bool
  | _, [] => true
  | [], _ :: _ => false
  | c :: cs, k :: ks => c == k && startsWithChars cs ks

/-- One candidate position of the compiled pattern: opening word boundary,
the escaped keyword taken literally, and the closing word boundary. -/
def matchAt (text kw : List Char) (i : Nat) : Bool :=
  boundaryAt text i && startsWithChars (text.drop i) kw && boundaryAt text (i + kw.length)

/-- Left-to-right non-overlapping scan of re.findall for a nonempty literal
pattern framed by word boundaries: on a match, resume after it; otherwise
advance one position.  Fuel bounds the scan; text.length + 1 steps suffice
because the keyword is nonempty (guarded by the strip check at the call site). -/
def countFrom (text kw : List Char) : Nat → Nat → Nat
  | _, 0 => 0
  | i, fuel + 1 =>
    if i > text.length then 0
    else if matchAt text kw i then countFrom text kw (i + kw.length) fuel + 1
    else countFrom text kw (i + 1) fuel

/-- Model of len(re.findall(pattern, text_content)) where pattern is a word
boundary, re.escape(keyword.lower()), and a word boundary. -/
def keywordCount (text_content : List Char) (keyword : String) : Nat :=
  countFrom text_content (lower keyword).data 0 (text_content.length + 1)

/-- The counts dict literal of get_headings, with its fixed six keys. -/
def initCounts : List (String × Nat) :=
  [("H1", 0), ("H2", 0), ("H3", 0), ("H4", 0), ("H5", 0), ("H6", 0)]

/-- Membership test `tag in counts` on a dict modelled as an association list. -/
def hasKey (d : List (String × Nat)) (k : String) : Bool :=
  d.any (fun p => p.1 == k)

/-- Model of counts[tag] += 1 on a dict with unique keys: increment the
first (hence only) entry whose key matches. -/
def bump : List (String × Nat) → String → List (String × Nat)
  | [], _ => []
  | p :: rest, tag => if p.1 == tag then (p.1, p.2 + 1) :: rest else p :: bump rest tag

/-- The heading loop of get_headings: for each element found by find_all,
upper-case its name, and when it is a counted level increment that level's
counter and the total and append (tag, stripped text) to the structure. -/
def headingLoop :
    List (String × String) → List (String × Nat) → Nat → List (String × String) →
      List (String × Nat) × Nat × List (String × String)
  | [], counts, total, struct => (counts, total, struct)
  | (name, text) :: hs, counts, total, struct =>
    let tag := upper name
    if hasKey counts tag then
      headingLoop hs (bump counts tag) (total + 1) (struct ++ [(tag, strip text)])
    else
      headingLoop hs counts total struct

/-- Model of keyword_counts[keyword] = count: overwrite in place when the key
exists, else append the new entry (Python dicts keep insertion order). -/
def dictInsert (d : List (String × Nat)) (k : String) (v : Nat) : List (String × Nat) :=
  if hasKey d k then d.map (fun p => if p.1 == k then (k, v) else p) else d ++ [(k, v)]

/-- The keyword loop of get_headings: only keywords nonempty after stripping
contribute, each stored under its original (non-lower-cased) string. -/
def keywordCountsLoop (keywords : List String) (text_content : List Char) :
    List (String × Nat) :=
  keywords.foldl
    (fun acc keyword =>
      if strip keyword ≠ "" then dictInsert acc keyword (keywordCount text_content keyword)
      else acc)
    []

/-- Abstraction of the parsed document handed to the extraction code by the
HTML parser: the h1..h6 elements in document order as (name, text), the first
title element's text if any, the first meta-description content attribute if
any, the full visible text, and the response status code. -/
structure Page where
  headings : List (String × String)
  titleTag : Option String
  metaContent : Option String
  textContent : String
  statusCode : Nat
deriving DecidableEq

/-- The tuple returned by get_headings, as a record. -/
structure PageResult where
  total : Nat
  counts : List (String × Nat)
  struct : List (String × String)
  title : String
  status : Nat
  metaDesc : String
  keywordCounts : List (String × Nat)
deriving DecidableEq

/-- The try branch of get_headings, after a successful fetch and parse. -/
def get_headings_success (page : Page) (keywords : Option (List String)) : PageResult :=
  let res := headingLoop page.headings initCounts 0 []
  let page_title :=
    match page.titleTag with
    | some t => strip t
    | none => "No Title"
  let meta_desc :=
    match page.metaContent with
    | some c => strip c
    | none => "No Meta Description"
  let keyword_counts :=
    match keywords with
    | none => []
    | some [] => []
    | some ks => keywordCountsLoop ks (lower page.textContent).data
  { total := res.2.1, counts := res.1, struct := res.2.2, title := page_title,
    status := page.statusCode, metaDesc := meta_desc, keywordCounts := keyword_counts }

/-- The except branch of get_headings: the degraded report, with the status
taken from the exception's response when it carries one and 0 otherwise. -/
def get_headings_failure (statusCode : Option Nat) : PageResult :=
  { total := 0, counts := [], struct := [], title := "Error",
    status := statusCode.getD 0, metaDesc := "Error", keywordCounts := [] }

/-- Model of get_headings: the fetch outcome is either a parsed page or a
request exception carrying an optional response status; the except clause
absorbs the failure, so the function is total and never re-raises. -/
def get_headings (fetched : Except (Option Nat) Page) (keywords : Option (List String)) :
    PageResult :=
  match fetched with
  | Except.ok page => get_headings_success page keywords
  | Except.error statusCode => get_headings_failure statusCode

/-- Dict read with default 0, as the driver does with counts.get(tag, 0). -/
def countOf (d : List (String × Nat)) (tag : String) : Nat :=
  match d.find? (fun p => p.1 == tag) with
  | some p => p.2
  | none => 0

/-- The key list of a dict modelled as an association list. -/
def keysOf (d : List (String × Nat)) : List String := d.map Prod.fst

/-- Model of sum(d.values()). -/
def sumVals : List (String × Nat) → Nat
  | [] => 0
  | p :: rest => p.2 + sumVals rest

/-- Model of int(tag[1]): the second character of the tag parsed as a digit;
an absent second character or a non-digit raises, modelled as none. -/
def tagLevel (tag : String) : Option Int :=
  match tag.data with
  | _ :: c :: _ => if c.isDigit then some ((c.toNat : Int) - 48) else none
  | _ => none

/-- Model of Python string repetition s * n, which is empty for n ≤ 0. -/
def strMul (s : String) (n : Int) : String :=
  concatStrings (List.replicate n.toNat s)

/-- Model of Python min over a generator: none on the empty list. -/
def minOfList : List Int → Option Int
  | [] => none
  | x :: xs => some (xs.foldl min x)

/-- Evaluate a fallible function across a list, failing on the first failure,
as a Python loop over a generator of possibly-raising expressions does. -/
def mapMOpt {α β : Type} (f : α → Option β) : List α → Option (List β)
  | [] => some []
  | a :: as =>
    match f a with
    | none => none
    | some b =>
      match mapMOpt f as with
      | none => none
      | some bs => some (b :: bs)

/-- Model of build_tree: early return on the empty structure; otherwise the
minimum numeric level is taken over all tags (raising if any tag fails to
parse), and each node contributes one line of (level - min_level) two-space
units, a dash, the tag, a colon, the text, and an ending newline. -/
def build_tree (s : List (String × String)) : Option String :=
  if s = [] then some "No headings found."
  else
    match mapMOpt (fun p => tagLevel p.1) s with
    | none => none
    | some levels =>
      match minOfList levels with
      | none => none
      | some min_level =>
        match mapMOpt
            (fun p => (tagLevel p.1).map
              (fun lvl => strMul "  " (lvl - min_level) ++ "- " ++ p.1 ++ ": " ++ p.2 ++ "\n"))
            s with
        | none => none
        | some lines => some (concatStrings lines)

/-- The six level-tags of the data model. -/
def levelTags : List String := ["H1", "H2", "H3", "H4", "H5", "H6"]

/-- Total numeric level of a level-tag, agreeing with tagLevel on H1..H6. -/
def numLevel (tag : String) : Int := (tagLevel tag).getD 0

/-- Minimum numeric level over a nonempty structure (0 on the empty one). -/
def minLv (s : List (String × String)) : Int :=
  match s.map (fun p => numLevel p.1) with
  | [] => 0
  | x :: xs => xs.foldl min x

/-- Model of str.split on a newline separator. -/
def splitNl : List Char → List (List Char)
  | [] => [[]]
  | c :: cs =>
    match splitNl cs with
    | [] => [[]]
    | line :: rest => if c = '\n' then [] :: line :: rest else (c :: line) :: rest

/-- The free-text URL collection: when the text area is nonempty, split on
newlines, strip each line, and keep the nonempty results. -/
def parseTextUrls (urls_input : String) : List String :=
  if urls_input = "" then []
  else ((splitNl urls_input.data).map (fun l => strip ⟨l⟩)).filter (fun u => u ≠ "")

/-- The URL collection of the Analyze Headings handler: free-text URLs first;
when a spreadsheet is present and parses, its column extends the list and the
result is deduplicated via list(set(urls)), whose order is unspecified —
List.dedup is the chosen representative.  With no spreadsheet no
deduplication happens, exactly as in the source. -/
def collectUrls (urls_input : String) (excelColumn : Option (List String)) : List String :=
  let urls := parseTextUrls urls_input
  match excelColumn with
  | none => urls
  | some ex => (urls ++ ex).dedup

/-! Helper lemmas about the string model. -/

theorem string_ext {a b : String} (h : a.data = b.data) : a = b := by
  cases a
  cases b
  exact congrArg String.mk h

theorem data_append_str (a b : String) : (a ++ b).data = a.data ++ b.data := rfl

theorem append_empty_str (s : String) : s ++ "" = s :=
  string_ext (by simp [data_append_str])

theorem empty_append_str (s : String) : "" ++ s = s :=
  string_ext (by simp [data_append_str])

theorem append_assoc_str (a b c : String) : a ++ b ++ c = a ++ (b ++ c) :=
  string_ext (by simp [data_append_str])

theorem foldl_append_eq (l : List String) :
    ∀ init : String, l.foldl (fun a b => a ++ b) init = init ++ concatStrings l := by
  induction l with
  | nil => intro init; simp [concatStrings, append_empty_str]
  | cons a l ih =>
    intro init
    show l.foldl (fun a b => a ++ b) (init ++ a) = _
    rw [ih (init ++ a), append_assoc_str]
    have : concatStrings (a :: l) = a ++ concatStrings l := by
      show l.foldl (fun a b => a ++ b) ("" ++ a) = _
      rw [ih ("" ++ a), empty_append_str]
    rw [this]

theorem concatStrings_cons (a : String) (l : List String) :
    concatStrings (a :: l) = a ++ concatStrings l := by
  show l.foldl (fun a b => a ++ b) ("" ++ a) = _
  rw [foldl_append_eq l ("" ++ a), empty_append_str]

theorem concatStrings_data (l : List String) :
    (concatStrings l).data = (l.map String.data).flatten := by
  induction l with
  | nil => rfl
  | cons a l ih => rw [concatStrings_cons]; simp [data_append_str, ih]

/-! Helper lemmas about mapMOpt, tagLevel and the minimum. -/

theorem mapMOpt_eq_map {α β : Type} (f : α → Option β) (g : α → β) :
    ∀ l : List α, (∀ a ∈ l, f a = some (g a)) → mapMOpt f l = some (l.map g) := by
  intro l
  induction l with
  | nil => intro; rfl
  | cons a l ih =>
    intro h
    have ha : f a = some (g a) := h a (List.mem_cons_self a l)
    have hl : mapMOpt f l = some (l.map g) := ih fun x hx => h x (List.mem_cons_of_mem a hx)
    simp [mapMOpt, ha, hl]

theorem tagLevel_mem {tag : String} (h : tag ∈ levelTags) :
    tagLevel tag = some (numLevel tag) := by
  simp only [levelTags, List.mem_cons, List.not_mem_nil, or_false] at h
  rcases h with rfl | rfl | rfl | rfl | rfl | rfl <;> rfl

theorem foldl_min_le (l : List Int) :
    ∀ a : Int, l.foldl min a ≤ a ∧ ∀ x ∈ l, l.foldl min a ≤ x := by
  induction l with
  | nil => intro a; exact ⟨le_refl a, by simp⟩
  | cons b l ih =>
    intro a
    have hb : List.foldl min a (b :: l) = List.foldl min (min a b) l := rfl
    constructor
    · rw [hb]
      exact le_trans (ih (min a b)).1 (min_le_left a b)
    · intro x hx
      rcases List.mem_cons.mp hx with rfl | hx
      · rw [hb]
        exact le_trans (ih (min a x)).1 (min_le_right a x)
      · rw [hb]
        exact (ih (min a b)).2 x hx

theorem minLv_le {s : List (String × String)} {p : String × String} (hp : p ∈ s) :
    minLv s ≤ numLevel p.1 := by
  obtain ⟨q, qs, rfl⟩ := List.exists_cons_of_ne_nil (List.ne_nil_of_mem hp)
  have hmem : numLevel p.1 ∈ (q :: qs).map (fun r => numLevel r.1) :=
    List.mem_map_of_mem (fun r => numLevel r.1) hp
  show (match (q :: qs).map (fun r => numLevel r.1) with
    | [] => (0 : Int)
    | x :: xs => xs.foldl min x) ≤ numLevel p.1
  simp only [List.map_cons]
  rw [List.map_cons] at hmem
  rcases List.mem_cons.mp hmem with he | hmem2
  · rw [← he]
    exact (foldl_min_le _ _).1
  · exact (foldl_min_le _ _).2 _ hmem2

/-- The line emitted for one node of a structure whose minimum level is m. -/
def renderLine (m : Int) (p : String × String) : String :=
  strMul "  " (numLevel p.1 - m) ++ "- " ++ p.1 ++ ": " ++ p.2 ++ "\n"

theorem build_tree_eq (s : List (String × String)) (hne : s ≠ [])
    (htags : ∀ p ∈ s, p.1 ∈ levelTags) :
    build_tree s = some (concatStrings (s.map (renderLine (minLv s)))) := by
  obtain ⟨q, qs, rfl⟩ := List.exists_cons_of_ne_nil hne
  have h1 : mapMOpt (fun p => tagLevel p.1) (q :: qs) =
      some ((q :: qs).map (fun p => numLevel p.1)) :=
    mapMOpt_eq_map _ _ _ (fun p hp => tagLevel_mem (htags p hp))
  have h2 : minOfList ((q :: qs).map (fun p => numLevel p.1)) = some (minLv (q :: qs)) := by
    simp [minOfList, minLv]
  have h3 : mapMOpt
      (fun p => (tagLevel p.1).map
        (fun lvl => strMul "  " (lvl - minLv (q :: qs)) ++ "- " ++ p.1 ++ ": " ++ p.2 ++ "\n"))
      (q :: qs) = some ((q :: qs).map (renderLine (minLv (q :: qs)))) := by
    refine mapMOpt_eq_map _ _ _ (fun p hp => ?_)
    rw [tagLevel_mem (htags p hp)]
    rfl
  simp only [build_tree, if_neg (List.cons_ne_nil q qs), h1, h2, h3]

/-! Helper lemmas about newline counting and last characters. -/

theorem count_concatStrings (c : Char) (l : List String) :
    (concatStrings l).data.count c = (l.map (fun s => s.data.count c)).sum := by
  induction l with
  | nil => rfl
  | cons a l ih =>
    rw [concatStrings_cons]
    simp only [data_append_str, List.count_append, List.map_cons, List.sum_cons, ih]

theorem strMul_no_newline (n : Int) : (strMul "  " n).data.count '\n' = 0 := by
  unfold strMul
  rw [count_concatStrings]
  induction n.toNat with
  | zero => rfl
  | succ m ih => simp [List.replicate_succ, ih]

theorem levelTag_no_newline {tag : String} (h : tag ∈ levelTags) :
    tag.data.count '\n' = 0 := by
  simp only [levelTags, List.mem_cons, List.not_mem_nil, or_false] at h
  rcases h with rfl | rfl | rfl | rfl | rfl | rfl <;> rfl

theorem renderLine_newline_count {m : Int} {p : String × String}
    (htag : p.1 ∈ levelTags) (htext : ('\n' : Char) ∉ p.2.data) :
    (renderLine m p).data.count '\n' = 1 := by
  unfold renderLine
  simp only [data_append_str, List.count_append]
  rw [strMul_no_newline, levelTag_no_newline htag, List.count_eq_zero.mpr htext]
  rfl

theorem renderLine_getLast (m : Int) (p : String × String) :
    (renderLine m p).data.getLast? = some '\n' := by
  unfold renderLine
  simp only [data_append_str]
  exact List.getLast?_concat _

theorem concatStrings_getLast (l : List String) (h : l ≠ [])
    (hl : ∀ s ∈ l, s.data.getLast? = some '\n') :
    (concatStrings l).data.getLast? = some '\n' := by
  induction l with
  | nil => exact absurd rfl h
  | cons a l ih =>
    rcases eq_or_ne l [] with rfl | hne
    · rw [concatStrings_cons]
      show (a ++ "").data.getLast? = some '\n'
      rw [append_empty_str]
      exact hl a (List.mem_cons_self a [])
    · rw [concatStrings_cons, data_append_str]
      have htail : (concatStrings l).data.getLast? = some '\n' :=
        ih hne (fun s hs => hl s (List.mem_cons_of_mem a hs))
      have hdata : (concatStrings l).data ≠ [] := by
        intro hc
        rw [hc] at htail
        exact Option.noConfusion htail
      rw [List.getLast?_append_of_ne_nil _ hdata]
      exact htail

/-! Helper lemmas about the counting loop of get_headings. -/

theorem hasKey_cons (p : String × Nat) (rest : List (String × Nat)) (k : String) :
    hasKey (p :: rest) k = ((p.1 == k) || hasKey rest k) := rfl

theorem sumVals_bump (d : List (String × Nat)) (tag : String) (h : hasKey d tag = true) :
    sumVals (bump d tag) = sumVals d + 1 := by
  induction d with
  | nil => simp [hasKey] at h
  | cons p rest ih =>
    by_cases hp : p.1 == tag
    · simp only [bump, if_pos hp, sumVals]
      omega
    · have hpf : (p.1 == tag) = false := by
        simpa using hp
      rw [hasKey_cons, hpf, Bool.false_or] at h
      simp only [bump, if_neg hp, sumVals, ih h]
      omega

theorem headingLoop_sum :
    ∀ (hs : List (String × String)) (counts : List (String × Nat)) (total : Nat)
      (struct : List (String × String)),
      sumVals (headingLoop hs counts total struct).1 + total =
        (headingLoop hs counts total struct).2.1 + sumVals counts := by
  intro hs
  induction hs with
  | nil =>
    intro counts total struct
    simp only [headingLoop]
    omega
  | cons h hs ih =>
    intro counts total struct
    obtain ⟨name, text⟩ := h
    by_cases hk : hasKey counts (upper name)
    · have hstep : headingLoop ((name, text) :: hs) counts total struct =
          headingLoop hs (bump counts (upper name)) (total + 1)
            (struct ++ [(upper name, strip text)]) := by
        simp [headingLoop, hk]
      rw [hstep]
      have := ih (bump counts (upper name)) (total + 1) (struct ++ [(upper name, strip text)])
      rw [sumVals_bump _ _ hk] at this
      omega
    · have hstep : headingLoop ((name, text) :: hs) counts total struct =
          headingLoop hs counts total struct := by
        simp [headingLoop, hk]
      rw [hstep]
      exact ih counts total struct

/-! Helper lemmas about the keyword dict. -/

theorem hasKey_iff (d : List (String × Nat)) (k : String) :
    hasKey d k = true ↔ k ∈ keysOf d := by
  simp only [hasKey, keysOf, List.any_eq_true, beq_iff_eq, List.mem_map]

theorem keysOf_update (d : List (String × Nat)) (k : String) (v : Nat) :
    keysOf (d.map fun p => if p.1 == k then (k, v) else p) = keysOf d := by
  induction d with
  | nil => rfl
  | cons p rest ih =>
    simp only [keysOf, List.map_cons] at ih ⊢
    by_cases hp : p.1 == k
    · rw [if_pos hp, ih]
      have : k = p.1 := (beq_iff_eq.mp hp).symm
      rw [this]
    · rw [if_neg hp, ih]

theorem keysOf_dictInsert (d : List (String × Nat)) (k : String) (v : Nat) (a : String) :
    a ∈ keysOf (dictInsert d k v) ↔ a ∈ keysOf d ∨ a = k := by
  unfold dictInsert
  by_cases h : hasKey d k
  · rw [if_pos h, keysOf_update]
    constructor
    · exact Or.inl
    · rintro (ha | rfl)
      · exact ha
      · exact (hasKey_iff d a).mp h
  · rw [if_neg h]
    simp [keysOf, List.mem_append]

theorem keys_kwLoop (text_content : List Char) :
    ∀ (ks : List String) (acc : List (String × Nat)),
      (∀ k ∈ ks, strip k ≠ "") →
      ∀ a, a ∈ keysOf (List.foldl
          (fun acc keyword =>
            if strip keyword ≠ "" then dictInsert acc keyword (keywordCount text_content keyword)
            else acc)
          acc ks) ↔ a ∈ keysOf acc ∨ a ∈ ks := by
  intro ks
  induction ks with
  | nil => intro acc _ a; simp
  | cons k ks ih =>
    intro acc h a
    have hk : strip k ≠ "" := h k (List.mem_cons_self k ks)
    have hstep : List.foldl
        (fun acc keyword =>
          if strip keyword ≠ "" then dictInsert acc keyword (keywordCount text_content keyword)
          else acc)
        acc (k :: ks) = List.foldl
          (fun acc keyword =>
            if strip keyword ≠ "" then dictInsert acc keyword (keywordCount text_content keyword)
            else acc)
          (dictInsert acc k (keywordCount text_content k)) ks := by
      simp [hk]
    rw [hstep, ih _ (fun x hx => h x (List.mem_cons_of_mem k hx)) a, keysOf_dictInsert]
    simp only [List.mem_cons]
    tauto

theorem sum_ones {α : Type} (l : List α) : (l.map (fun _ => (1 : Nat))).sum = l.length := by
  induction l with
  | nil => rfl
  | cons a l ih =>
    simp [ih]
    omega

/-! Concrete inputs used by witnesses and counterexamples. -/

/-- Page whose visible text is the keyword-counting example of the spec. -/
def seoPage : Page :=
  { headings := [], titleTag := none, metaContent := none,
    textContent := "SEO seo-tools seo.", statusCode := 200 }

/-- Page used to exercise the keyword-key invariant. -/
def kwPage : Page :=
  { headings := [("h1", "Welcome")], titleTag := some "t", metaContent := none,
    textContent := "SEO and digital marketing", statusCode := 200 }

/-- The three-node rendering example of the spec. -/
def demoNodes : List (String × String) := [("H2", "Intro"), ("H3", "Sub"), ("H1", "Title")]

/-! Claims. -/

/-- Claim C1: for every extractor result, on the success path and on the
fetch-failure path of get_headings alike, the sum of the values of the
per-level counts mapping equals the returned total heading count. -/
theorem claim_C1_sum_counts_eq_total (page : Page) (keywords : Option (List String))
    (statusCode : Option Nat) :
    sumVals (get_headings (Except.ok page) keywords).counts =
      (get_headings (Except.ok page) keywords).total ∧
    sumVals (get_headings (Except.error statusCode) keywords).counts =
      (get_headings (Except.error statusCode) keywords).total := by
  constructor
  · have h := headingLoop_sum page.headings initCounts 0 []
    have h0 : sumVals initCounts = 0 := rfl
    rw [h0] at h
    have hc : (get_headings (Except.ok page) keywords).counts =
        (headingLoop page.headings initCounts 0 []).1 := rfl
    have ht : (get_headings (Except.ok page) keywords).total =
        (headingLoop page.headings initCounts 0 []).2.1 := rfl
    rw [hc, ht]
    omega
  · rfl

/-- Claim C2: when the fetch raises a request exception, get_headings absorbs
it (the embedding of the except clause is a total function, nothing is
re-raised) and returns the degraded report: title "Error", meta description
"Error", total 0, every per-level count read as zero, empty keywordCounts,
and httpStatus the exception's response status when present and 0 otherwise. -/
theorem claim_C2_fetch_failure_degraded (statusCode : Option Nat)
    (keywords : Option (List String)) :
    (get_headings (Except.error statusCode) keywords).title = "Error" ∧
    (get_headings (Except.error statusCode) keywords).metaDesc = "Error" ∧
    (get_headings (Except.error statusCode) keywords).total = 0 ∧
    countOf (get_headings (Except.error statusCode) keywords).counts "H1" = 0 ∧
    countOf (get_headings (Except.error statusCode) keywords).counts "H2" = 0 ∧
    countOf (get_headings (Except.error statusCode) keywords).counts "H3" = 0 ∧
    countOf (get_headings (Except.error statusCode) keywords).counts "H4" = 0 ∧
    countOf (get_headings (Except.error statusCode) keywords).counts "H5" = 0 ∧
    countOf (get_headings (Except.error statusCode) keywords).counts "H6" = 0 ∧
    (get_headings (Except.error statusCode) keywords).keywordCounts = [] ∧
    (get_headings (Except.error statusCode) keywords).status = statusCode.getD 0 :=
  ⟨rfl, rfl, rfl, rfl, rfl, rfl, rfl, rfl, rfl, rfl, rfl⟩

/-- Claim C3 counterexample: on the spec's own example text "SEO seo-tools
seo." with keyword "seo", the extractor's whole-word count is not 2: the
word boundary also holds between the letter o and the hyphen, so the "seo"
inside "seo-tools" matches as well. -/
theorem claim_C3_counterexample :
    countOf (get_headings (Except.ok seoPage) (some ["seo"])).keywordCounts "seo" ≠ 2 := by
  decide

/-- Claim C3 amended: for the visible text "SEO seo-tools seo." and keyword
"seo", the whole-word keyword counting of the extractor yields exactly 3
matches: the leading "SEO", the "seo" of "seo-tools" (a hyphen is not a word
character, so a boundary separates them), and the final "seo.". -/
theorem claim_C3_amended_count_three :
    countOf (get_headings (Except.ok seoPage) (some ["seo"])).keywordCounts "seo" = 3 := by
  decide

/-- Claim C4 counterexample: build_tree emits each node's text verbatim and
does not strip it; for the single node ("H1", " x ") the rendered line keeps
the surrounding spaces and differs from a line built from the stripped text. -/
theorem claim_C4_counterexample :
    build_tree [("H1", " x ")] = some "- H1:  x \n" ∧
    ("- H1:  x \n" : String) ≠ "- H1: " ++ strip " x " ++ "\n" := by
  decide

/-- Claim C4 amended: for every non-empty sequence of HeadingNodes, whose
tags are level-tags H1..H6, build_tree emits for each node in original input
order exactly one line of (level - minLevel) two-space indentation units, a
literal dash, the level-tag, a colon, and the node's text as stored in the
node (the extractor already strips texts when creating nodes); the indent
unit count is never negative since minLevel is the minimum level present. -/
theorem claim_C4_amended_render (s : List (String × String)) (hne : s ≠ [])
    (htags : ∀ p ∈ s, p.1 ∈ levelTags) :
    build_tree s = some (concatStrings (s.map (renderLine (minLv s)))) ∧
    ∀ p ∈ s, minLv s ≤ numLevel p.1 :=
  ⟨build_tree_eq s hne htags, fun _ hp => minLv_le hp⟩

/-- Witness for claim C4 at the spec's three-node example. -/
theorem claim_C4_witness :
    (demoNodes ≠ [] ∧ ∀ p ∈ demoNodes, p.1 ∈ levelTags) ∧
    (build_tree demoNodes = some (concatStrings (demoNodes.map (renderLine (minLv demoNodes)))) ∧
      ∀ p ∈ demoNodes, minLv demoNodes ≤ numLevel p.1) :=
  ⟨⟨by decide, by decide⟩, claim_C4_amended_render demoNodes (by decide) (by decide)⟩

/-- Claim C5: on the empty sequence build_tree returns the literal
no-headings message, which is not the empty string. -/
theorem claim_C5_empty_message :
    build_tree [] = some "No headings found." ∧ ("No headings found." : String) ≠ "" := by
  decide

/-- Claim C6: on a successful extraction with keyword search enabled and a
non-empty keyword list, each keyword non-empty after stripping, the keys of
keywordCounts are exactly the input keyword strings in their original
non-lower-cased form (mutual inclusion); with keywords absent or the empty
list, keywordCounts is empty. -/
theorem claim_C6_keyword_keys (page : Page) (ks : List String) (hne : ks ≠ [])
    (hnz : ∀ k ∈ ks, strip k ≠ "") :
    (keysOf (get_headings (Except.ok page) (some ks)).keywordCounts ⊆ ks ∧
      ks ⊆ keysOf (get_headings (Except.ok page) (some ks)).keywordCounts) ∧
    (get_headings (Except.ok page) none).keywordCounts = [] ∧
    (get_headings (Except.ok page) (some [])).keywordCounts = [] := by
  refine ⟨?_, rfl, rfl⟩
  obtain ⟨k0, ks0, rfl⟩ := List.exists_cons_of_ne_nil hne
  have hkeys : (get_headings (Except.ok page) (some (k0 :: ks0))).keywordCounts =
      keywordCountsLoop (k0 :: ks0) (lower page.textContent).data := rfl
  rw [hkeys]
  unfold keywordCountsLoop
  have h := keys_kwLoop (lower page.textContent).data (k0 :: ks0) [] hnz
  constructor
  · intro a ha
    rcases (h a).mp ha with hacc | hks
    · simp [keysOf] at hacc
    · exact hks
  · intro a ha
    exact (h a).mpr (Or.inr ha)

/-- Witness for claim C6 on a concrete page and two keywords. -/
theorem claim_C6_witness :
    ((["SEO", "digital marketing"] : List String) ≠ [] ∧
      ∀ k ∈ (["SEO", "digital marketing"] : List String), strip k ≠ "") ∧
    ((keysOf (get_headings (Except.ok kwPage)
        (some ["SEO", "digital marketing"])).keywordCounts ⊆ ["SEO", "digital marketing"] ∧
      (["SEO", "digital marketing"] : List String) ⊆
        keysOf (get_headings (Except.ok kwPage)
          (some ["SEO", "digital marketing"])).keywordCounts) ∧
    (get_headings (Except.ok kwPage) none).keywordCounts = [] ∧
    (get_headings (Except.ok kwPage) (some [])).keywordCounts = []) :=
  ⟨⟨by decide, by decide⟩,
    claim_C6_keyword_keys kwPage ["SEO", "digital marketing"] (by decide) (by decide)⟩

/-- Claim C7: with both input sources present the handler merges the
free-text URLs with the spreadsheet column and deduplicates, so the fetched
list has no duplicates, holds exactly the URLs supplied by either source,
and each supplied URL occurs exactly once, giving one fetch per unique URL. -/
theorem claim_C7_dedup (urls_input : String) (ex : List String) :
    (collectUrls urls_input (some ex)).Nodup ∧
    (∀ u, u ∈ collectUrls urls_input (some ex) ↔
      u ∈ parseTextUrls urls_input ∨ u ∈ ex) ∧
    (∀ u, (u ∈ parseTextUrls urls_input ∨ u ∈ ex) →
      (collectUrls urls_input (some ex)).count u = 1) := by
  have hcoll : collectUrls urls_input (some ex) = (parseTextUrls urls_input ++ ex).dedup := rfl
  refine ⟨?_, ?_, ?_⟩
  · rw [hcoll]
    exact List.nodup_dedup _
  · intro u
    rw [hcoll, List.mem_dedup, List.mem_append]
  · intro u hu
    rw [hcoll]
    exact List.count_eq_one_of_mem (List.nodup_dedup _)
      (by rw [List.mem_dedup, List.mem_append]; exact hu)

/-- Witness for claim C7: the URL a appears in both sources and is fetched
once. -/
theorem claim_C7_witness :
    (("a" ∈ parseTextUrls "a\nb" ∨ ("a" : String) ∈ (["a", "c"] : List String))) ∧
    (collectUrls "a\nb" (some ["a", "c"])).count "a" = 1 :=
  ⟨by decide, (claim_C7_dedup "a\nb" ["a", "c"]).2.2 "a" (by decide)⟩

/-- Claim C8: build_tree is a pure function of its argument in this
embedding, so it is deterministic: two invocations on the same input yield
byte-identical output strings. -/
theorem claim_C8_deterministic (s t : List (String × String)) (h : s = t) :
    build_tree s = build_tree t := by
  rw [h]

/-- Witness for claim C8 at the spec's three-node example. -/
theorem claim_C8_witness :
    demoNodes = demoNodes ∧ build_tree demoNodes = build_tree demoNodes :=
  ⟨rfl, claim_C8_deterministic demoNodes demoNodes rfl⟩

/-- Claim C9 counterexample: a node text may itself contain a newline, and
build_tree copies it verbatim, so a one-node sequence can render to a string
holding two newline characters rather than exactly one newline-terminated
line per node. -/
theorem claim_C9_counterexample :
    build_tree [("H1", "a\nb")] = some "- H1: a\nb\n" ∧
    ("- H1: a\nb\n" : String).data.count '\n' = 2 := by
  decide

/-- Claim C9 amended: for every non-empty sequence of n HeadingNodes whose
tags are level-tags and whose texts contain no newline character, the string
returned by build_tree contains exactly n newline characters (one terminating
each emitted line) and its final character is a newline, whereas the
no-headings message returned for the empty sequence has no trailing newline. -/
theorem claim_C9_amended_line_count :
    (∀ s : List (String × String), s ≠ [] → (∀ p ∈ s, p.1 ∈ levelTags) →
      (∀ p ∈ s, ('\n' : Char) ∉ p.2.data) →
      ((build_tree s).getD "").data.count '\n' = s.length ∧
      ((build_tree s).getD "").data.getLast? = some '\n') ∧
    build_tree [] = some "No headings found." ∧
    ("No headings found." : String).data.getLast? ≠ some '\n' := by
  refine ⟨?_, rfl, by decide⟩
  intro s hne htags htext
  rw [build_tree_eq s hne htags]
  simp only [Option.getD_some]
  constructor
  · rw [count_concatStrings, List.map_map]
    have hmap : s.map ((fun str => str.data.count '\n') ∘ renderLine (minLv s)) =
        s.map (fun _ => 1) :=
      List.map_congr_left (fun p hp => renderLine_newline_count (htags p hp) (htext p hp))
    rw [hmap, sum_ones]
  · refine concatStrings_getLast _ (fun hc => hne (List.map_eq_nil_iff.mp hc)) ?_
    intro str hstr
    obtain ⟨p, _, rfl⟩ := List.mem_map.mp hstr
    exact renderLine_getLast _ _

/-- Witness for claim C9 at the spec's three-node example. -/
theorem claim_C9_witness :
    (demoNodes ≠ [] ∧ (∀ p ∈ demoNodes, p.1 ∈ levelTags) ∧
      ∀ p ∈ demoNodes, ('\n' : Char) ∉ p.2.data) ∧
    (((build_tree demoNodes).getD "").data.count '\n' = demoNodes.length ∧
      ((build_tree demoNodes).getD "").data.getLast? = some '\n') :=
  ⟨⟨by decide, by decide, by decide⟩,
    claim_C9_amended_line_count.1 demoNodes (by decide) (by decide) (by decide)⟩

/-- Claim C10: when every tag of the input sequence is a level-tag H1..H6,
build_tree is total: the numeric-level parse of each tag succeeds, the
minimum is only taken over a non-empty list, and no error branch is
reachable, so the result is always some rendered string. -/
theorem claim_C10_total_on_level_tags (s : List (String × String))
    (htags : ∀ p ∈ s, p.1 ∈ levelTags) :
    (build_tree s).isSome = true := by
  rcases eq_or_ne s [] with rfl | hne
  · rfl
  · rw [build_tree_eq s hne htags]
    rfl

/-- Witness for claim C10 on a one-node sequence. -/
theorem claim_C10_witness :
    (∀ p ∈ ([("H6", "z")] : List (String × String)), p.1 ∈ levelTags) ∧
    (build_tree [("H6", "z")]).isSome = true :=
  ⟨by decide, claim_C10_total_on_level_tags [("H6", "z")] (by decide)⟩

end Stra2
